import Mathlib

/-!
# Verification of the InterviewCoder model-provider pipeline

Shallow embedding of the core of the InterviewCoder desktop application:
the provider adapters (`OpenAIProvider`, `GeminiProvider`, `OllamaProvider`),
the provider selector (`ProcessingHelper.initializeModelProvider`), the
configuration store (`ConfigHelper`) and the three stage parsers
(extraction / solution / debug) of `ProcessingHelper.ts`.

JavaScript strings are modelled as `List Char` (`Str`), so that the string
algorithms of the source (substring search, `trim`, `split`, the effect of
the regular expressions actually used) can be replayed faithfully and
executed by `decide`.  JS truthiness of a string/array is modelled as
non-emptiness, and an absent (`undefined`) string field as the empty string,
which has the same truthiness.
-/

/-- JavaScript strings, modelled as character lists. -/
abbrev Str := List Char

/-- ASCII lowering, the effect of `String.prototype.toLowerCase` on the
ASCII strings handled by the parsers. -/
def lowerStr (s : Str) : Str := s.map Char.toLower

/-- `String.prototype.includes`: substring containment. -/
def containsStr (s pat : Str) : Bool :=
  match s with
  | [] => pat.isEmpty
  | _ :: tail => pat.isPrefixOf s || containsStr tail pat

/-- The whitespace class trimmed by `String.prototype.trim` (ASCII part). -/
def isJsSpace (c : Char) : Bool :=
  c = ' ' || c = '\t' || c = '\n' || c = '\r' || c = '\x0b' || c = '\x0c'

/-- Drop leading whitespace. -/
def trimStartStr (s : Str) : Str := s.dropWhile isJsSpace

/-- `String.prototype.trim`. -/
def jsTrim (s : Str) : Str :=
  ((trimStartStr s).reverse.dropWhile isJsSpace).reverse

/-- `String.prototype.split` with a single-character separator. -/
def splitOnCharAux (sep : Char) : Str → Str → List Str
  | [], acc => [acc.reverse]
  | c :: cs, acc =>
    if c = sep then acc.reverse :: splitOnCharAux sep cs []
    else splitOnCharAux sep cs (c :: acc)

/-- `s.split(sep)` for a one-character separator string. -/
def splitOnChar (sep : Char) (s : Str) : List Str := splitOnCharAux sep s []

/-- `s.startsWith(pat)`. -/
def startsWithStr (pat s : Str) : Bool := pat.isPrefixOf s

/-- If `pat` is a prefix of `s`, return the rest of `s`, else `none`. -/
def dropStart (pat s : Str) : Option Str :=
  if pat.isPrefixOf s then some (s.drop pat.length) else none

/-! ## Extraction stage: structured problem info (`ProcessingHelper.ts`)

`processScreenshotsHelper` parses the extraction response into a problem
record with fields `problem_statement`, `constraints` (array),
`example_input`, `example_output`.  A missing field is `undefined` in JS;
its truthiness coincides with that of the empty string / empty array used
here. -/

/-- The structured extraction result (`problemInfo` in the source). -/
structure ProblemInfo where
  problem_statement : Str
  constraints : List Str
  example_input : Str
  example_output : Str
deriving DecidableEq, Repr

/-- The completeness predicate of `ProcessingHelper.ts` lines 387-392:
`p.problem_statement && ((p.constraints && p.constraints.length > 0) ||
(p.example_input && p.example_output))`. -/
def isCompleteProblem (p : ProblemInfo) : Bool :=
  !p.problem_statement.isEmpty &&
    (!p.constraints.isEmpty ||
      (!p.example_input.isEmpty && !p.example_output.isEmpty))

/-- Lines 387-396: `problemInfo.find(...)` followed by
`completeProblem || problemInfo[0]`. -/
def selectProblemFromArray (ps : List ProblemInfo) : Option ProblemInfo :=
  match ps.find? isCompleteProblem with
  | some p => some p
  | none => ps.head?

/-- The shape of the JSON value obtained from the stripped response text at
line 378 (`JSON.parse(jsonText)`): either a single object or an array of
candidate objects. -/
inductive ExtractionJson where
  | obj (p : ProblemInfo)
  | arr (ps : List ProblemInfo)
deriving DecidableEq, Repr

/-- Lines 378-397: the array branch picks a candidate, a single object
passes through unchanged. -/
def chooseProblemInfo : ExtractionJson → Option ProblemInfo
  | .obj p => some p
  | .arr ps => selectProblemFromArray ps

/-! ## The shared chat contract and the Gemini adapter translation
(`GeminiProvider.ts`, `chat.completions.create`) -/

/-- One part of a multimodal message content array (OpenAI wire shape used
by the stages: `{type:"text",text}` / `{type:"image_url",image_url:{url}}`). -/
inductive ContentItem where
  | text (t : Str)
  | image_url (url : Str)
deriving DecidableEq, Repr

/-- Message content: either a plain string or an array of parts. -/
inductive MessageContent where
  | str (s : Str)
  | parts (items : List ContentItem)
deriving DecidableEq, Repr

/-- A role-tagged chat message of the shared contract. -/
structure ChatMessage where
  role : Str
  content : MessageContent
deriving DecidableEq, Repr

/-- JS template-literal stringification `${message.content}` used at
`GeminiProvider.ts` line 60 for system messages: a string interpolates as
itself; an array of part objects interpolates as the comma-joined
`[object Object]` renderings. -/
def jsTemplate : MessageContent → Str
  | .str s => s
  | .parts items =>
    List.intercalate [','] (items.map fun _ => "[object Object]".data)

/-- A part of the Gemini `generateContent` request body. -/
inductive GPart where
  | text (t : Str)
  | inlineData (data : Str) (mimeType : Str)
deriving DecidableEq, Repr

/-- Translation of one content item (`GeminiProvider.ts` lines 72-90):
text items pass through; image items whose URL starts with `data:image/`
contribute their `split(",")[1]` base64 payload (the stage URLs always
contain the comma; for a comma-free URL JS would push `undefined`, rendered
here as the empty payload); any other item is dropped. -/
def geminiPartOfItem : ContentItem → List GPart
  | .text t => [.text t]
  | .image_url url =>
    if startsWithStr "data:image/".data url then
      [.inlineData ((splitOnChar ',' url).getD 1 []) "image/png".data]
    else []

/-- Translation of one message (`GeminiProvider.ts` lines 56-92). -/
def geminiPartsOfMessage (m : ChatMessage) : List GPart :=
  if m.role = "system".data then
    [.text ("System instruction: ".data ++ jsTemplate m.content)]
  else
    match m.content with
    | .str s => [.text s]
    | .parts items => (items.map geminiPartOfItem).flatten

/-- The flat part list sent to Gemini. -/
def geminiParts (msgs : List ChatMessage) : List GPart :=
  (msgs.map geminiPartsOfMessage).flatten

/-- One entry of the `contents` array of a Gemini request. -/
structure GeminiContent where
  role : Str
  parts : List GPart
deriving DecidableEq, Repr

/-- `GeminiProvider.ts` line 104: the whole request is sent as a single
`user`-role content holding every translated part. -/
def geminiRequestContents (msgs : List ChatMessage) : List GeminiContent :=
  [⟨"user".data, geminiParts msgs⟩]

/-- The concrete stage-shaped request used to refute the round-trip claim:
one system message and one user message with a text part and one image
part. -/
def geminiCounterexampleRequest : List ChatMessage :=
  [⟨"system".data, .str "You are helpful.".data⟩,
   ⟨"user".data, .parts
     [.text "Hi".data, .image_url "data:image/png;base64,QUJD".data]⟩]

/-! ## The Ollama adapter (`OllamaProvider.ts`, `chat.completions.create`)

The adapter flattens the message list into one prompt string, extracts the
base64 images into a side list, sends one `/generate` request, and on
failure retries exactly once without images (lines 170-213).  The backend
is modelled as a function from the request body to a result; image
resizing (`resizeBase64Image`, an external image library call) is modelled
as an arbitrary function applied to each extracted image. -/

/-- Decision procedure for the anchored regular expression
`^data:image\/[a-z]+;base64,(.+)$` of `OllamaProvider.ts` line 91: the
captured base64 payload, when the URL matches (the greedy `[a-z]+` run must
be non-empty and followed by `;base64,`; `.` does not match line
terminators and `$` anchors at the very end). -/
def ollamaImageMatch (url : Str) : Option Str :=
  match dropStart "data:image/".data url with
  | none => none
  | some rest =>
    let run := rest.takeWhile (fun c => 'a' ≤ c && c ≤ 'z')
    if run.isEmpty then none
    else
      match dropStart ";base64,".data (rest.drop run.length) with
      | none => none
      | some d =>
        if !d.isEmpty && !d.contains '\n' && !d.contains '\r' then some d
        else none

/-- JS truthiness of a message-content value (`systemPrompt ? ... : ...`):
an empty string is falsy, any array is truthy. -/
def contentTruthy : MessageContent → Bool
  | .str s => !s.isEmpty
  | .parts _ => true

/-- Lines 64-71: the system prompt is taken from the first message only
when its role is `system`. -/
def ollamaSystemContent (msgs : List ChatMessage) : Option MessageContent :=
  match msgs with
  | m :: _ => if m.role = "system".data then some m.content else none
  | [] => none

/-- Lines 74-78: `messages.find(role === "user") || messages[last]`. -/
def ollamaUserMessage (msgs : List ChatMessage) : Option ChatMessage :=
  match msgs.find? (fun m => m.role = "user".data) with
  | some m => some m
  | none => msgs.getLast?

/-- Lines 80-102: fold over the user content collecting text (concatenated)
and matching data-URL images (in order). -/
def ollamaTextImages : MessageContent → Str × List Str
  | .str s => (s, [])
  | .parts items =>
    items.foldl
      (fun (acc : Str × List Str) it =>
        match it with
        | .text t => (acc.1 ++ t, acc.2)
        | .image_url url =>
          match ollamaImageMatch url with
          | some d => (acc.1, acc.2 ++ [d])
          | none => acc)
      ([], [])

/-- Lines 59-107: the final prompt (system prompt prefixed over a blank
line when truthy) and the extracted image list. -/
def ollamaPromptImages (msgs : List ChatMessage) : Str × List Str :=
  match ollamaUserMessage msgs with
  | none => ([], [])
  | some um =>
    let ti := ollamaTextImages um.content
    let finalPrompt :=
      match ollamaSystemContent msgs with
      | some c =>
        if contentTruthy c then jsTemplate c ++ "\n\n".data ++ ti.1 else ti.1
      | none => ti.1
    (finalPrompt, ti.2)

/-- The body of one Ollama `/generate` request; an absent `images` field is
the empty list. -/
structure OllamaGenerateRequest where
  model : Str
  prompt : Str
  images : List Str
deriving DecidableEq, Repr

/-- The note appended to the prompt of the image-stripped retry
(line 186). -/
def ollamaRetryNote : Str :=
  "\n\n(Note: There were images in this prompt but they couldn\x27t be processed)".data

/-- Lines 48-214: `chat.completions.create`, returning the result together
with the list of requests actually issued to the backend.  `send` is the
backend (`axios.post` on `/generate`); `resize` is the image-downsizing
step applied to each image before the first request. -/
def ollamaCreate {ε : Type} (send : OllamaGenerateRequest → Except ε Str)
    (resize : Str → Str) (model : Str) (msgs : List ChatMessage) :
    Except ε Str × List OllamaGenerateRequest :=
  let pi := ollamaPromptImages msgs
  let images := pi.2.map resize
  let req1 : OllamaGenerateRequest := ⟨model, pi.1, images⟩
  match send req1 with
  | .ok r => (.ok r, [req1])
  | .error e =>
    if images.length > 0 then
      let req2 : OllamaGenerateRequest := ⟨model, pi.1 ++ ollamaRetryNote, []⟩
      match send req2 with
      | .ok r => (.ok r, [req1, req2])
      | .error e2 => (.error e2, [req1, req2])
    else (.error e, [req1])

/-! ## Debug stage parsing (`ProcessingHelper.processExtraScreenshotsHelper`)

Lines 929-941 split the cleaned response on the plain-text markers
(the regular expression `-----.*?-----`, lazy, `.` not matching newlines)
and assign the pieces positionally; lines 967-1007 derive the no-issues
flag, the code-changes field (with its two sentinel markers) and the
status flag.  The keyword-anchored fallback of lines 942-964 is outside
the scope of the claims about this stage, so `debugSectionsFromMarkers`
models only the marker path and is applied only to marker-bearing
content. -/

/-- After an opening `-----`, scan lazily (never across a newline) for the
closing `-----`; return the rest of the input after the closing marker. -/
def markerClose : Str → Option Str
  | [] => none
  | c :: cs =>
    match dropStart "-----".data (c :: cs) with
    | some rest => some rest
    | none => if c = '\n' then none else markerClose cs

/-- A match of `-----.*?-----` starting at the head of the input: the rest
of the input after the match, if any. -/
def markerMatchAt (s : Str) : Option Str :=
  match dropStart "-----".data s with
  | none => none
  | some rest => markerClose rest

/-- `String.prototype.split(/-----.*?-----/)`: fuel-indexed scan (each step
consumes at least one character, so `length + 1` fuel is exact). -/
def splitMarkersGo : Nat → Str → Str → List Str
  | 0, rem, acc => [acc.reverse ++ rem]
  | _ + 1, [], acc => [acc.reverse]
  | n + 1, c :: cs, acc =>
    match markerMatchAt (c :: cs) with
    | some rest => acc.reverse :: splitMarkersGo n rest []
    | none => splitMarkersGo n cs (c :: acc)

/-- `cleanContent.split(/-----.*?-----/)` (line 930). -/
def splitMarkers (s : Str) : List Str := splitMarkersGo (s.length + 1) s []

/-- The four sections of a debug response. -/
structure DebugSections where
  issues : Str
  codeChanges : Str
  explanation : Str
  keyPoints : Str
deriving DecidableEq, Repr

/-- Lines 921-940: positional assignment of the trimmed split pieces when
the issues marker is present and at least four pieces result; the fields
keep their initial empty value otherwise. -/
def debugSectionsFromMarkers (cleanContent : Str) : DebugSections :=
  if containsStr cleanContent "----- ISSUES IDENTIFIED -----".data then
    let parts := splitMarkers cleanContent
    if parts.length ≥ 4 then
      { issues := jsTrim (parts.getD 1 [])
        codeChanges := jsTrim (parts.getD 2 [])
        explanation := jsTrim (parts.getD 3 [])
        keyPoints := if parts.length ≥ 5 then jsTrim (parts.getD 4 []) else [] }
    else ⟨[], [], [], []⟩
  else ⟨[], [], [], []⟩

/-- Lines 967-972: the no-issues flag. -/
def noIssuesFound (s : DebugSections) : Bool :=
  containsStr (lowerStr s.issues) "no issues".data ||
  containsStr (lowerStr s.issues) "code looks correct".data ||
  containsStr (lowerStr s.issues) "not found".data ||
  containsStr (lowerStr s.codeChanges) "no code changes".data ||
  (jsTrim s.issues).isEmpty

/-- The frontend sentinel for "no changes needed" (line 978). -/
def NO_CODE_CHANGES_NEEDED : Str := "__NO_CODE_CHANGES_NEEDED__".data

/-- The frontend sentinel for "analysis only" (lines 1002, 1005). -/
def ANALYSIS_ONLY : Str := "__ANALYSIS_ONLY__".data

/-- Lines 975-1007: the code field of the debug result. -/
def debugCodeChanges (s : DebugSections) : Str :=
  if noIssuesFound s then NO_CODE_CHANGES_NEEDED
  else
    if !s.codeChanges.isEmpty &&
        !containsStr (lowerStr s.codeChanges) "no code changes".data then
      let codeLines := (splitOnChar '\n' s.codeChanges).filter (fun line =>
        !containsStr (lowerStr line) "should be".data &&
        !containsStr (lowerStr line) "recommend".data &&
        !containsStr (lowerStr line) "would change".data &&
        !containsStr (lowerStr line) "here\x27s".data &&
        !startsWithStr "•".data (lowerStr line) &&
        !(jsTrim line).isEmpty)
      let joined := List.intercalate ['\n'] codeLines
      if (jsTrim joined).isEmpty then ANALYSIS_ONLY else joined
    else ANALYSIS_ONLY

/-- Line 1040: the explicit status flag. -/
def debugStatus (s : DebugSections) : Str :=
  if noIssuesFound s then "NO_CHANGES".data else "HAS_CHANGES".data

/-- The condition stated by the specification for the no-issues flag: one
of the three phrases in the issues section (case-insensitively), or
`no code changes` in the code-changes section, or an empty issues
section. -/
def specNoIssues (s : DebugSections) : Bool :=
  containsStr (lowerStr s.issues) "no issues".data ||
  containsStr (lowerStr s.issues) "code looks correct".data ||
  containsStr (lowerStr s.issues) "not found".data ||
  containsStr (lowerStr s.codeChanges) "no code changes".data ||
  s.issues.isEmpty

/-- Scenario C of the specification: the four-marker debug response.  It
contains no markdown styling, so the cleaning pass of lines 909-918 leaves
it unchanged. -/
def scenarioCResponse : Str :=
  ("----- ISSUES IDENTIFIED -----\nNo issues found in the visible code\n" ++
   "----- CODE CHANGES -----\nNo code changes required.\n" ++
   "----- EXPLANATION -----\nCode is correct.\n" ++
   "----- KEY POINTS -----\n• Good job").data

/-! ## Cancellation (`ProcessingHelper.cancelOngoingRequests`, lines 1067-1093)

`ProcessingHelper` holds two `AbortController` references (modelled as
presence booleans), the has-debugged flag and the stored problem info.
`cancelOngoingRequests` aborts and clears both controllers, resets the
flag, clears the problem info, and reports whether anything was in
flight.  Note that `processScreenshotsHelper` receives the corresponding
`AbortSignal` as a parameter but never attaches it to the provider call:
the options object built at lines 347-353 has exactly the four fields
`model`, `messages`, `max_tokens`, `temperature`. -/

/-- The cancellation-relevant state of `ProcessingHelper`. -/
structure ProcessingState where
  currentProcessingAbortController : Bool
  currentExtraProcessingAbortController : Bool
  hasDebugged : Bool
  problemInfo : Option ProblemInfo
deriving DecidableEq, Repr

/-- Lines 1067-1093: the new state and the `wasCancelled` flag (which
gates the `NO_SCREENSHOTS` event sent to the window). -/
def cancelOngoingRequests (s : ProcessingState) : ProcessingState × Bool :=
  let wasCancelled :=
    s.currentProcessingAbortController ||
      s.currentExtraProcessingAbortController
  (⟨false, false, false, none⟩, wasCancelled)

/-- The options object passed to `chat.completions.create` by the
extraction stage (lines 347-353). -/
structure ChatCompletionOptions where
  model : Str
  messages : List ChatMessage
  max_tokens : Nat
  temperature : ℚ
deriving DecidableEq, Repr

/-- Lines 321-325: the extraction system prompt (stricter for Ollama). -/
def extractionSystemPrompt (modelProvider : Str) : Str :=
  if modelProvider = "ollama".data then
    ("You are a coding challenge interpreter. Your task is to analyze " ++
     "screenshots of a coding problem and extract ALL the information. " ++
     "Return ONLY a SINGLE JSON object with these fields: " ++
     "problem_statement, constraints (as array), example_input, " ++
     "example_output. Do not include multiple possibilities or " ++
     "variations. ONLY return a valid JSON object.").data
  else
    ("You are a coding challenge interpreter. Analyze the screenshot of " ++
     "the coding problem and extract all relevant information. Return " ++
     "the information in JSON format with these fields: " ++
     "problem_statement, constraints, example_input, example_output. " ++
     "Just return the structured JSON without any other text.").data

/-- Lines 330-337: the extraction user text part. -/
def extractionUserText (language modelProvider : Str) : Str :=
  ("Extract the coding problem details from these screenshots. Return " ++
   "in JSON format. Preferred coding language we gonna use for this " ++
   "problem is ").data ++ language ++ ".".data ++
  (if modelProvider = "ollama".data then
    (" IMPORTANT: Return ONLY a single valid JSON object, not an array " ++
     "of possibilities.").data
   else [])

/-- Lines 319-344: the extraction messages. -/
def extractionMessages (modelProvider language : Str)
    (imageDataList : List Str) : List ChatMessage :=
  [⟨"system".data, .str (extractionSystemPrompt modelProvider)⟩,
   ⟨"user".data, .parts (.text (extractionUserText language modelProvider) ::
      imageDataList.map
        (fun d => .image_url ("data:image/png;base64,".data ++ d)))⟩]

/-- Lines 347-353: the full options object of the extraction request.  The
`AbortSignal` of the pipeline is in scope at this point in the source
(parameter `signal` of `processScreenshotsHelper`) but is not read: the
parameter below reproduces that scope and the body's independence of it
reproduces the object literal, which has no signal/cancellation field. -/
def buildExtractionOptions (signalAborted : Bool)
    (extractionModel modelProvider language : Str)
    (imageDataList : List Str) : ChatCompletionOptions :=
  ⟨extractionModel, extractionMessages modelProvider language imageDataList,
   4000, 1 / 5⟩

/-! ## The configuration store (`ConfigHelper.ts`)

`updateConfig` merges a partial update over the loaded configuration,
persists it, and emits the `config-updated` notification only when one of
`apiKey`, `extractionModel`, `solutionModel`, `debuggingModel`, `language`
occurs in the update (lines 106-129). -/

/-- The persisted configuration (`ConfigHelper.ts` lines 8-18). -/
structure Config where
  modelProvider : Str
  apiKey : Str
  geminiApiKey : Str
  extractionModel : Str
  solutionModel : Str
  debuggingModel : Str
  ollamaUrl : Str
  language : Str
  opacity : ℚ
deriving DecidableEq, Repr

/-- A partial update (`Partial<Config>`): a present field overrides, an
absent (`undefined`) field is kept. -/
structure ConfigUpdate where
  modelProvider : Option Str
  apiKey : Option Str
  geminiApiKey : Option Str
  extractionModel : Option Str
  solutionModel : Option Str
  debuggingModel : Option Str
  ollamaUrl : Option Str
  language : Option Str
  opacity : Option ℚ
deriving DecidableEq, Repr

/-- The default configuration (`ConfigHelper.ts` lines 22-32). -/
def defaultConfig : Config :=
  ⟨"openai".data, [], [], "gpt-4o".data, "gpt-4o".data, "gpt-4o".data,
   "localhost:11434/api".data, "javascript".data, 1⟩

/-- The object-spread merge `{ ...currentConfig, ...updates }`
(line 109). -/
def mergeConfig (c : Config) (u : ConfigUpdate) : Config :=
  { modelProvider := u.modelProvider.getD c.modelProvider
    apiKey := u.apiKey.getD c.apiKey
    geminiApiKey := u.geminiApiKey.getD c.geminiApiKey
    extractionModel := u.extractionModel.getD c.extractionModel
    solutionModel := u.solutionModel.getD c.solutionModel
    debuggingModel := u.debuggingModel.getD c.debuggingModel
    ollamaUrl := u.ollamaUrl.getD c.ollamaUrl
    language := u.language.getD c.language
    opacity := u.opacity.getD c.opacity }

/-- Lines 114-120: the emission condition of the `config-updated`
notification: one of the five listed fields is present in the update. -/
def emitsConfigUpdated (u : ConfigUpdate) : Bool :=
  u.apiKey.isSome || u.extractionModel.isSome || u.solutionModel.isSome ||
    u.debuggingModel.isSome || u.language.isSome

/-- Lines 106-129: `updateConfig` returns the merged configuration and
whether the notification was emitted. -/
def updateConfig (c : Config) (u : ConfigUpdate) : Config × Bool :=
  (mergeConfig c u, emitsConfigUpdated u)

/-- The condition stated by the claim: the update touches a
provider-affecting field — a credential (`apiKey` or `geminiApiKey`), one
of the three per-stage model identifiers, or the target language. -/
def touchesProviderAffectingField (u : ConfigUpdate) : Bool :=
  u.apiKey.isSome || u.geminiApiKey.isSome || u.extractionModel.isSome ||
    u.solutionModel.isSome || u.debuggingModel.isSome || u.language.isSome

/-- An update that only sets the Gemini credential. -/
def geminiKeyOnlyUpdate : ConfigUpdate :=
  ⟨none, none, some "AIza-new-key".data, none, none, none, none, none, none⟩

/-- An update that only sets the display opacity. -/
def opacityOnlyUpdate : ConfigUpdate :=
  ⟨none, none, none, none, none, none, none, none, some (1 / 2)⟩

/-! ## Solution stage: complexity normalization
(`ProcessingHelper.generateSolutionsHelper`, lines 710-760)

The matched complexity text is trimmed, then: if it lacks `O(...)`
notation (the case-insensitive regular expression `O\([^)]+\)`) it is
prefixed with `O(n) - `; else if it contains neither `-` nor `because`,
the leftmost notation match is spliced to the front over ` - `.  When no
heading matched at all, a fixed notation-bearing default is used. -/

/-- `O` or `o` (the regular expression is case-insensitive). -/
def isBigOStart (c : Char) : Bool := c = 'O' || c = 'o'

/-- A match of `O\([^)]+\)` anchored at the head of the input: the matched
text.  The greedy `[^)]+` takes every character up to the first `)`; the
match succeeds when that run is non-empty and a character follows it
(which, being the first character the run excluded, is necessarily `)`),
exactly the backtracking behaviour of the regular expression. -/
def bigOMatchAt : Str → Option Str
  | c :: p :: cs =>
    if isBigOStart c && p == '(' then
      if (cs.takeWhile (fun x => x != ')')).isEmpty ||
          (cs.drop (cs.takeWhile (fun x => x != ')')).length).isEmpty then
        none
      else some (c :: p :: (cs.takeWhile (fun x => x != ')') ++ [')']))
    else none
  | _ => none

/-- The leftmost match of `O\([^)]+\)` in the input (the behaviour of
`String.prototype.match` without the global flag). -/
def findBigO : Str → Option Str
  | [] => none
  | c :: cs =>
    match bigOMatchAt (c :: cs) with
    | some m => some m
    | none => findBigO cs

/-- `text.match(/O\([^)]+\)/i)` viewed as a test. -/
def hasBigO (s : Str) : Bool := (findBigO s).isSome

/-- `String.prototype.replace` with a string pattern and empty
replacement: remove the first occurrence of `pat`. -/
def removeFirst (pat : Str) : Str → Str
  | [] => []
  | c :: cs =>
    if pat.isPrefixOf (c :: cs) then (c :: cs).drop pat.length
    else c :: removeFirst pat cs

/-- The default time-complexity text (lines 715-716). -/
def timeComplexityDefault : Str :=
  ("O(n) - Linear time complexity because we only iterate through the " ++
   "array once. Each element is processed exactly one time, and the " ++
   "hashmap lookups are O(1) operations.").data

/-- The default space-complexity text (lines 717-718). -/
def spaceComplexityDefault : Str :=
  ("O(n) - Linear space complexity because we store elements in the " ++
   "hashmap. In the worst case, we might need to store all elements " ++
   "before finding the solution pair.").data

/-- Lines 720-760 (one arm; both complexity fields run the same code):
normalize the matched text, or fall back to the default when the heading
regular expression did not match. -/
def fixComplexity (deflt : Str) (matched : Option Str) : Str :=
  match matched with
  | none => deflt
  | some m =>
    if !hasBigO (jsTrim m) then "O(n) - ".data ++ jsTrim m
    else
      if !containsStr (jsTrim m) "-".data &&
          !containsStr (jsTrim m) "because".data then
        match findBigO (jsTrim m) with
        | some ntn =>
          ntn ++ " - ".data ++ jsTrim (removeFirst ntn (jsTrim m))
        | none => jsTrim m
      else jsTrim m

/-- The time-complexity field of the solution result. -/
def timeComplexityOf (matched : Option Str) : Str :=
  fixComplexity timeComplexityDefault matched

/-- The space-complexity field of the solution result. -/
def spaceComplexityOf (matched : Option Str) : Str :=
  fixComplexity spaceComplexityDefault matched

/-! ## Solution stage: code extraction
(`ProcessingHelper.generateSolutionsHelper`, lines 679-680)

`responseContent.match(/```(?:\w+)?\s*([\s\S]*?)```/)` finds the first
fenced block: after the first triple-backtick, the optional greedy word
run (the language tag) and greedy whitespace are skipped, and the lazy
group captures everything up to the next triple-backtick.  If the
expression has no match, the whole response is used as the code. -/

/-- The backtick character. -/
def backtickChar : Char := Char.ofNat 96

/-- The word-character class `\w`. -/
def isWordChar (c : Char) : Bool :=
  ('a' ≤ c && c ≤ 'z') || ('A' ≤ c && c ≤ 'Z') ||
    ('0' ≤ c && c ≤ '9') || c = '_'

/-- The input remaining after the first triple-backtick occurrence, if
any. -/
def afterFirstFence : Str → Option Str
  | [] => none
  | c :: cs =>
    match dropStart "```".data (c :: cs) with
    | some rest => some rest
    | none => afterFirstFence cs

/-- The input up to (exclusive) the first triple-backtick occurrence, or
`none` when there is no such occurrence (the lazy group `([\s\S]*?)`
followed by the closing fence). -/
def upToFence : Str → Option Str
  | [] => none
  | c :: cs =>
    match dropStart "```".data (c :: cs) with
    | some _ => some []
    | none =>
      match upToFence cs with
      | some b => some (c :: b)
      | none => none

/-- The capture group of the first match of
`/```(?:\w+)?\s*([\s\S]*?)```/`, if the expression matches.  (If the
greedy `(?:\w+)?\s*` path finds no closing fence, backtracking cannot
succeed either: shortening the word/whitespace runs never creates a
triple backtick, and any later starting position needs a further fence
occurrence that already did not exist.) -/
def extractFencedCode (s : Str) : Option Str :=
  match afterFirstFence s with
  | none => none
  | some after =>
    let afterLang := after.drop (after.takeWhile isWordChar).length
    let afterWs := afterLang.drop (afterLang.takeWhile isJsSpace).length
    upToFence afterWs

/-- Lines 679-680: `codeMatch ? codeMatch[1].trim() : responseContent`. -/
def solveCode (responseContent : Str) : Str :=
  match extractFencedCode responseContent with
  | some body => jsTrim body
  | none => responseContent

/-! ## Provider initialization and the selector
(`OpenAIProvider.ts`, `GeminiProvider.ts`, `OllamaProvider.ts`,
`ProcessingHelper.initializeModelProvider` lines 38-69)

Each provider's `initialize` is wrapped in `try/catch` and returns a
boolean; the selector constructs a fresh provider for the configured kind,
calls `initialize`, and keeps the instance only on success (otherwise the
`modelProvider` reference is `null`).  The Ollama probe (`GET /tags`) is
the only network operation during initialization and is modelled as an
oracle returning the model list on success and `none` on failure; the
OpenAI and Gemini initializers only construct local client objects and
perform no network call, so their embeddings take no oracle. -/

/-- State of an `OpenAIProvider` instance: the client, holding the
credential it was built with. -/
structure OpenAIState where
  client : Option Str
deriving DecidableEq, Repr

/-- `OpenAIProvider.initialize` (lines 18-32): fails only on a missing
(falsy) credential. -/
def openaiInitialize (cfg : Config) : OpenAIState × Bool :=
  if cfg.apiKey.isEmpty then (⟨none⟩, false)
  else (⟨some cfg.apiKey⟩, true)

/-- `OpenAIProvider.isInitialized`. -/
def openaiIsInitialized (s : OpenAIState) : Bool := s.client.isSome

/-- State of a `GeminiProvider` instance (`genAI` handle and the
generative-model client, holding the chosen model name). -/
structure GeminiState where
  genAI : Option Str
  client : Option Str
deriving DecidableEq, Repr

/-- `GeminiProvider.initialize` (lines 8-29): fails only on a missing
(falsy) credential; otherwise it constructs the local client objects for
the configured model name (`config.geminiModel || config.extractionModel
|| "gemini-pro-vision"`; the persisted configuration schema has no
`geminiModel` field) and returns true.  No network request is made. -/
def geminiInitialize (cfg : Config) : GeminiState × Bool :=
  if cfg.geminiApiKey.isEmpty then (⟨none, none⟩, false)
  else
    (⟨some cfg.geminiApiKey,
      some (if cfg.extractionModel.isEmpty then "gemini-pro-vision".data
            else cfg.extractionModel)⟩, true)

/-- `GeminiProvider.isInitialized` (lines 31-33): `client !== null`. -/
def geminiIsInitialized (s : GeminiState) : Bool := s.client.isSome

/-- State of an `OllamaProvider` instance. -/
structure OllamaState where
  baseUrl : Str
  isConnected : Bool
deriving DecidableEq, Repr

/-- `OllamaProvider.initialize` (lines 218-262): resolve the base URL,
probe `GET {baseUrl}/tags` (the oracle), and mark connected only when the
probe succeeds; a failed probe is caught and yields false — no retry. -/
def ollamaInitialize (probe : Str → Option (List Str)) (cfg : Config) :
    OllamaState × Bool :=
  let baseUrl :=
    if cfg.ollamaUrl.isEmpty then "http://localhost:11434/api".data
    else cfg.ollamaUrl
  match probe baseUrl with
  | some _ => (⟨baseUrl, true⟩, true)
  | none => (⟨baseUrl, false⟩, false)

/-- `OllamaProvider.isInitialized`. -/
def ollamaIsInitialized (s : OllamaState) : Bool := s.isConnected

/-- The active provider instance held by `ProcessingHelper`. -/
inductive Provider where
  | openai (s : OpenAIState)
  | gemini (s : GeminiState)
  | ollama (s : OllamaState)
deriving DecidableEq, Repr

/-- Dispatch of `isInitialized` over the active provider. -/
def providerIsInitialized : Provider → Bool
  | .openai s => openaiIsInitialized s
  | .gemini s => geminiIsInitialized s
  | .ollama s => ollamaIsInitialized s

/-- `ProcessingHelper.initializeModelProvider` (lines 38-69): pick the
constructor for `config.modelProvider || "openai"` (any unrecognized kind
falls through to OpenAI), initialize the fresh instance, and expose it
only on success; any thrown failure is caught and likewise leaves the
reference `null`. -/
def initializeModelProvider (probe : Str → Option (List Str))
    (cfg : Config) : Option Provider :=
  let providerType :=
    if cfg.modelProvider.isEmpty then "openai".data else cfg.modelProvider
  if providerType = "gemini".data then
    match geminiInitialize cfg with
    | (st, true) => some (.gemini st)
    | (_, false) => none
  else if providerType = "ollama".data then
    match ollamaInitialize probe cfg with
    | (st, true) => some (.ollama st)
    | (_, false) => none
  else
    match openaiInitialize cfg with
    | (st, true) => some (.openai st)
    | (_, false) => none

/-! ## Theorems for claim C1 -/

/-- **C1** (confirmed).  For an extraction response parsing as a JSON array,
the stage selects the first element whose problem statement is non-empty and
that has either non-empty constraints or both examples populated; if no
element qualifies it selects the first element of the array; a single JSON
object passes through unchanged. -/
theorem extraction_candidate_selection :
    (∀ (pre : List ProblemInfo) (p : ProblemInfo) (post : List ProblemInfo),
        (∀ q ∈ pre, isCompleteProblem q = false) →
        isCompleteProblem p = true →
        chooseProblemInfo (ExtractionJson.arr (pre ++ p :: post)) = some p) ∧
    (∀ ps : List ProblemInfo,
        (∀ q ∈ ps, isCompleteProblem q = false) →
        chooseProblemInfo (ExtractionJson.arr ps) = ps.head?) ∧
    (∀ p : ProblemInfo, chooseProblemInfo (ExtractionJson.obj p) = some p) := by
  refine ⟨?_, ?_, fun p => rfl⟩
  · intro pre p post hpre hp
    have hfind : (pre ++ p :: post).find? isCompleteProblem = some p := by
      induction pre with
      | nil => simp [List.find?_cons_of_pos, hp]
      | cons q pre ih =>
        have hq : isCompleteProblem q = false := hpre q (by simp)
        have hrest : ∀ r ∈ pre, isCompleteProblem r = false := fun r hr =>
          hpre r (by simp [hr])
        rw [List.cons_append, List.find?_cons_of_neg _ (by simp [hq])]
        exact ih hrest
    simp [chooseProblemInfo, selectProblemFromArray, hfind]
  · intro ps hps
    have hnone : ps.find? isCompleteProblem = none :=
      List.find?_eq_none.mpr (fun x hx => by simp [hps x hx])
    simp [chooseProblemInfo, selectProblemFromArray, hnone]

/-- Witness for C1, on Scenario B of the specification: the first candidate
has an empty problem statement, the second (`Two Sum`) is selected. -/
theorem extraction_candidate_selection_witness :
    chooseProblemInfo (ExtractionJson.arr
      [⟨[], [], [], []⟩,
       ⟨"Two Sum".data, [], "[2,7]".data, "[0,1]".data⟩]) =
      some ⟨"Two Sum".data, [], "[2,7]".data, "[0,1]".data⟩ :=
  extraction_candidate_selection.1
    [⟨[], [], [], []⟩] ⟨"Two Sum".data, [], "[2,7]".data, "[0,1]".data⟩ []
    (by decide) (by decide)

/-! ## Theorems for claim C2 -/

/-- Splitting a separator-free list yields a single piece. -/
theorem splitOnCharAux_of_not_mem (sep : Char) (l : Str) (acc : Str)
    (h : sep ∉ l) : splitOnCharAux sep l acc = [acc.reverse ++ l] := by
  induction l generalizing acc with
  | nil => simp [splitOnCharAux]
  | cons c cs ih =>
    have hc : ¬ c = sep := fun hcs => h (by simp [hcs])
    have hcs' : sep ∉ cs := fun hmem => h (by simp [hmem])
    simp [splitOnCharAux, hc, ih _ hcs']

/-- Splitting at the first separator occurrence. -/
theorem splitOnCharAux_append_sep (sep : Char) (a d acc : Str)
    (ha : sep ∉ a) :
    splitOnCharAux sep (a ++ sep :: d) acc =
      (acc.reverse ++ a) :: splitOnCharAux sep d [] := by
  induction a generalizing acc with
  | nil => simp [splitOnCharAux]
  | cons c cs ih =>
    have hc : ¬ c = sep := fun hcs => ha (by simp [hcs])
    have hcs' : sep ∉ cs := fun hmem => ha (by simp [hmem])
    simp [splitOnCharAux, hc, ih _ hcs']

/-- `split(",")` of a stage image URL recovers the base64 payload. -/
theorem splitOnChar_dataUrl (d : Str) (hd : ',' ∉ d) :
    splitOnChar ',' ("data:image/png;base64,".data ++ d) =
      ["data:image/png;base64".data, d] := by
  have h1 : "data:image/png;base64,".data =
      "data:image/png;base64".data ++ [','] := by decide
  rw [h1, List.append_assoc, List.singleton_append]
  unfold splitOnChar
  rw [splitOnCharAux_append_sep _ _ _ _ (by decide),
    splitOnCharAux_of_not_mem _ _ _ hd]
  rfl

/-- The translation of a single stage image item yields exactly the
original base64 payload. -/
theorem geminiPartOfItem_dataUrl (d : Str) (hd : ',' ∉ d) :
    geminiPartOfItem (ContentItem.image_url
      ("data:image/png;base64,".data ++ d)) =
      [GPart.inlineData d "image/png".data] := by
  have h2 : "data:image/png;base64,".data =
      "data:image/".data ++ "png;base64,".data := by decide
  have hpre : startsWithStr "data:image/".data
      ("data:image/png;base64,".data ++ d) = true := by
    rw [startsWithStr, h2, List.append_assoc]
    exact List.isPrefixOf_iff_prefix.mpr (List.prefix_append _ _)
  simp only [geminiPartOfItem]
  rw [if_pos hpre, splitOnChar_dataUrl d hd]
  rfl

/-- **C2** (counterexample).  On a stage-shaped request with a system
message, the Gemini adapter emits every part under the single role `user`
(the original roles `system`/`user` are not preserved), and the system text
segment `You are helpful.` does not survive byte-for-byte: it is replaced
by the prefixed text `System instruction: You are helpful.`. -/
theorem adapter_roundtrip_counterexample :
    geminiParts geminiCounterexampleRequest =
      [GPart.text "System instruction: You are helpful.".data,
       GPart.text "Hi".data,
       GPart.inlineData "QUJD".data "image/png".data] ∧
    (geminiRequestContents geminiCounterexampleRequest).map
        GeminiContent.role = ["user".data] ∧
    GPart.text "You are helpful.".data ∉
      geminiParts geminiCounterexampleRequest ∧
    ¬ ∃ c ∈ geminiRequestContents geminiCounterexampleRequest,
        c.role = "system".data := by
  refine ⟨by decide, by decide, by decide, by decide⟩

/-- **C2** (amended, proved).  For a stage-built request (one system text
message, one user message with a leading text part and data-URL image
parts), the Gemini adapter flattens everything, in order, into a single
`user`-role content: the user text part is carried byte-for-byte, every
image part contributes its original base64 payload unchanged, and the
system text is carried with the `System instruction: ` prefix.  Roles are
not preserved: the backend request has exactly one content with role
`user`. -/
theorem gemini_translation_preserves_content
    (sys txt : Str) (datas : List Str)
    (hd : ∀ d ∈ datas, ',' ∉ d) :
    geminiParts
      [⟨"system".data, .str sys⟩,
       ⟨"user".data, .parts (.text txt :: datas.map
         (fun d => .image_url ("data:image/png;base64,".data ++ d)))⟩] =
      GPart.text ("System instruction: ".data ++ sys) ::
        GPart.text txt ::
        datas.map (fun d => GPart.inlineData d "image/png".data) ∧
    (geminiRequestContents
      [⟨"system".data, .str sys⟩,
       ⟨"user".data, .parts (.text txt :: datas.map
         (fun d => .image_url ("data:image/png;base64,".data ++ d)))⟩]).map
      GeminiContent.role = ["user".data] := by
  have himg : ∀ (ds : List Str), (∀ d ∈ ds, ',' ∉ d) →
      ((ds.map (fun d =>
          ContentItem.image_url ("data:image/png;base64,".data ++ d))).map
        geminiPartOfItem).flatten =
      ds.map (fun d => GPart.inlineData d "image/png".data) := by
    intro ds hds
    induction ds with
    | nil => rfl
    | cons d ds ih =>
      have hdne : ',' ∉ d := hds d (by simp)
      have hrest : ∀ x ∈ ds, ',' ∉ x := fun x hx => hds x (by simp [hx])
      rw [List.map_cons, List.map_cons, List.flatten_cons,
        geminiPartOfItem_dataUrl d hdne, ih hrest, List.singleton_append,
        List.map_cons]
  have hsys : geminiPartsOfMessage ⟨"system".data, .str sys⟩ =
      [GPart.text ("System instruction: ".data ++ sys)] := by
    simp [geminiPartsOfMessage, jsTemplate]
  have huser : ∀ items, geminiPartsOfMessage ⟨"user".data, .parts items⟩ =
      (items.map geminiPartOfItem).flatten := by
    intro items
    simp [geminiPartsOfMessage]
  constructor
  · have hun : geminiParts
        [⟨"system".data, .str sys⟩,
         ⟨"user".data, .parts (.text txt :: datas.map
           (fun d => .image_url ("data:image/png;base64,".data ++ d)))⟩] =
        geminiPartsOfMessage ⟨"system".data, .str sys⟩ ++
          (geminiPartsOfMessage ⟨"user".data, .parts (.text txt :: datas.map
            (fun d => .image_url ("data:image/png;base64,".data ++ d)))⟩ ++
            []) := rfl
    rw [hun, hsys, huser, List.map_cons, List.flatten_cons, himg datas hd]
    simp [geminiPartOfItem]
  · rfl

/-- Witness for the amended C2 theorem at a concrete request with two
images. -/
theorem gemini_translation_preserves_content_witness :
    geminiParts
      [⟨"system".data, .str "S".data⟩,
       ⟨"user".data, .parts (.text "T".data ::
         (["QUJD".data, "RUZH".data]).map
           (fun d => .image_url ("data:image/png;base64,".data ++ d)))⟩] =
      GPart.text ("System instruction: ".data ++ "S".data) ::
        GPart.text "T".data ::
        (["QUJD".data, "RUZH".data]).map
          (fun d => GPart.inlineData d "image/png".data) :=
  (gemini_translation_preserves_content "S".data "T".data
    ["QUJD".data, "RUZH".data] (by decide)).1

/-! ## Theorems for claim C3 -/

/-- **C3** (confirmed).  If the extracted image list is non-empty and the
first backend request fails, exactly one retry is issued: it carries no
images and its prompt is the original prompt with the note appended, and
the overall outcome is the retry's outcome (so a failing retry surfaces its
error).  If the extracted image list is empty, exactly one request is
issued and its outcome surfaces unchanged — no retry ever happens. -/
theorem ollama_image_strip_retry {ε : Type}
    (send : OllamaGenerateRequest → Except ε Str) (resize : Str → Str)
    (model : Str) (msgs : List ChatMessage) :
    (∀ e : ε,
      (ollamaPromptImages msgs).2.map resize ≠ [] →
      send ⟨model, (ollamaPromptImages msgs).1,
        (ollamaPromptImages msgs).2.map resize⟩ = .error e →
      (ollamaCreate send resize model msgs).2 =
        [⟨model, (ollamaPromptImages msgs).1,
            (ollamaPromptImages msgs).2.map resize⟩,
         ⟨model, (ollamaPromptImages msgs).1 ++ ollamaRetryNote, []⟩] ∧
      (ollamaCreate send resize model msgs).1 =
        send ⟨model, (ollamaPromptImages msgs).1 ++ ollamaRetryNote, []⟩) ∧
    ((ollamaPromptImages msgs).2.map resize = [] →
      (ollamaCreate send resize model msgs).2 =
        [⟨model, (ollamaPromptImages msgs).1, []⟩] ∧
      (ollamaCreate send resize model msgs).1 =
        send ⟨model, (ollamaPromptImages msgs).1, []⟩) := by
  constructor
  · intro e hne hsend
    have hlen : ((ollamaPromptImages msgs).2.map resize).length > 0 :=
      List.length_pos.mpr hne
    constructor
    · simp only [ollamaCreate, hsend, hlen, if_pos]
      cases hretry : send ⟨model, (ollamaPromptImages msgs).1 ++
          ollamaRetryNote, []⟩ <;> simp [hretry]
    · simp only [ollamaCreate, hsend, hlen, if_pos]
      cases hretry : send ⟨model, (ollamaPromptImages msgs).1 ++
          ollamaRetryNote, []⟩ <;> simp [hretry]
  · intro hempty
    cases hsend : send ⟨model, (ollamaPromptImages msgs).1, []⟩ with
    | ok r =>
      constructor <;> simp only [ollamaCreate, hempty] <;> simp [hsend]
    | error e =>
      constructor <;> simp only [ollamaCreate, hempty] <;> simp [hsend]

/-- Witness for C3: a concrete request with one image against a backend
that always fails with status 500; the trace shows exactly the original
request and the single stripped retry, and the error surfaces. -/
theorem ollama_image_strip_retry_witness :
    ((ollamaCreate (fun _ => (Except.error 500 : Except Nat Str)) id
        "llama3.2-vision".data
        [⟨"system".data, .str "Sys".data⟩,
         ⟨"user".data, .parts [.text "T".data,
            .image_url "data:image/png;base64,QUJD".data]⟩]).2 =
      [⟨"llama3.2-vision".data,
        (ollamaPromptImages
          [⟨"system".data, .str "Sys".data⟩,
           ⟨"user".data, .parts [.text "T".data,
              .image_url "data:image/png;base64,QUJD".data]⟩]).1,
        (ollamaPromptImages
          [⟨"system".data, .str "Sys".data⟩,
           ⟨"user".data, .parts [.text "T".data,
              .image_url "data:image/png;base64,QUJD".data]⟩]).2.map id⟩,
       ⟨"llama3.2-vision".data,
        (ollamaPromptImages
          [⟨"system".data, .str "Sys".data⟩,
           ⟨"user".data, .parts [.text "T".data,
              .image_url "data:image/png;base64,QUJD".data]⟩]).1 ++
          ollamaRetryNote, []⟩]) ∧
    ((ollamaCreate (fun _ => (Except.error 500 : Except Nat Str)) id
        "llama3.2-vision".data
        [⟨"system".data, .str "Sys".data⟩,
         ⟨"user".data, .parts [.text "T".data,
            .image_url "data:image/png;base64,QUJD".data]⟩]).1 =
      Except.error 500) := by
  have h := (ollama_image_strip_retry
    (fun _ => (Except.error 500 : Except Nat Str)) id
    "llama3.2-vision".data
    [⟨"system".data, .str "Sys".data⟩,
     ⟨"user".data, .parts [.text "T".data,
        .image_url "data:image/png;base64,QUJD".data]⟩]).1 500
    (by decide) rfl
  exact ⟨h.1, h.2⟩

/-! ## Theorems for claim C4 -/

set_option maxRecDepth 8192 in
/-- **C4** (confirmed).  On the trimmed sections the parser produces, the
no-issues flag holds exactly under the condition stated by the
specification; whenever the flag is true the code field is the
`NO_CODE_CHANGES_NEEDED` sentinel and the status flag is `NO_CHANGES`; and
Scenario C's four-marker response parses to a flagged result with that
sentinel and status. -/
theorem debug_no_issues_flag :
    (∀ s : DebugSections, jsTrim s.issues = s.issues →
        noIssuesFound s = specNoIssues s) ∧
    (∀ s : DebugSections, noIssuesFound s = true →
        debugCodeChanges s = NO_CODE_CHANGES_NEEDED ∧
        debugStatus s = "NO_CHANGES".data) ∧
    (noIssuesFound (debugSectionsFromMarkers scenarioCResponse) = true ∧
     debugCodeChanges (debugSectionsFromMarkers scenarioCResponse) =
       NO_CODE_CHANGES_NEEDED ∧
     debugStatus (debugSectionsFromMarkers scenarioCResponse) =
       "NO_CHANGES".data) := by
  refine ⟨?_, ?_, by decide, by decide, by decide⟩
  · intro s h
    simp only [noIssuesFound, specNoIssues, h]
  · intro s h
    simp [debugCodeChanges, debugStatus, h]

/-- Witness for C4 at concrete trimmed sections whose issues text contains
the phrase `no issues`. -/
theorem debug_no_issues_flag_witness :
    noIssuesFound ⟨"No issues found".data, [], [], []⟩ =
      specNoIssues ⟨"No issues found".data, [], [], []⟩ :=
  debug_no_issues_flag.1 ⟨"No issues found".data, [], [], []⟩ (by decide)

/-! ## Theorems for claim C5 -/

/-- **C5** (the state-clearing half is what the code implements).
`cancelOngoingRequests` clears both abort controllers, resets the
has-debugged flag and the pending problem info, and reports whether a
pipeline was in flight — so a subsequent extraction starts clean.  The
second conjunct evaluates the failing half of the claim: the options
object the extraction stage sends to the provider is identical whatever
the state of the pipeline's abort signal, because the source never
attaches the signal to the request — hence aborting cannot interrupt the
network call or produce a canceled outcome from it. -/
theorem cancel_clears_state_but_signal_unused :
    (∀ s : ProcessingState,
        (cancelOngoingRequests s).1.problemInfo = none ∧
        (cancelOngoingRequests s).1.hasDebugged = false ∧
        (cancelOngoingRequests s).1.currentProcessingAbortController = false ∧
        (cancelOngoingRequests s).1.currentExtraProcessingAbortController
          = false ∧
        (cancelOngoingRequests s).2 =
          (s.currentProcessingAbortController ||
            s.currentExtraProcessingAbortController)) ∧
    (∀ (a b : Bool) (em mp lang : Str) (imgs : List Str),
        buildExtractionOptions a em mp lang imgs =
          buildExtractionOptions b em mp lang imgs) :=
  ⟨fun _ => ⟨rfl, rfl, rfl, rfl, rfl⟩, fun _ _ _ _ _ _ => rfl⟩

/-! ## Theorems for claim C6 -/

/-- **C6** (counterexample).  The update that only changes the Gemini
credential touches a provider-affecting field (a credential), yet
`updateConfig` does not emit the change notification. -/
theorem config_update_notification_counterexample :
    touchesProviderAffectingField geminiKeyOnlyUpdate = true ∧
    (updateConfig defaultConfig geminiKeyOnlyUpdate).2 = false := by
  exact ⟨rfl, rfl⟩

/-- **C6** (amended, proved).  The notification is emitted if and only if
the update contains `apiKey`, one of the three per-stage model
identifiers, or the target language — so never for an update containing
only the display opacity (whose value is still merged), and also not for
updates containing only `geminiApiKey`, `ollamaUrl` or the provider
kind. -/
theorem config_update_notification_amended :
    (∀ (c : Config) (u : ConfigUpdate),
        (updateConfig c u).2 =
          (u.apiKey.isSome || u.extractionModel.isSome ||
            u.solutionModel.isSome || u.debuggingModel.isSome ||
            u.language.isSome)) ∧
    (∀ (c : Config) (q : ℚ),
        (updateConfig c
          ⟨none, none, none, none, none, none, none, none, some q⟩).2 =
          false) ∧
    (∀ c : Config,
        (updateConfig c opacityOnlyUpdate).1 = { c with opacity := 1 / 2 }) ∧
    (∀ c : Config,
        (updateConfig c
          ⟨some "ollama".data, none, none, none, none, none, none, none,
            none⟩).2 = false) :=
  ⟨fun _ _ => rfl, fun _ _ => rfl, fun _ => rfl, fun _ => rfl⟩

/-! ## Theorems for claim C7 -/

/-- Dropping the length of the `takeWhile` run is `dropWhile`. -/
theorem drop_length_takeWhile (p : Char → Bool) (l : Str) :
    l.drop (l.takeWhile p).length = l.dropWhile p := by
  induction l with
  | nil => rfl
  | cons c cs ih =>
    cases hp : p c <;> simp [List.takeWhile_cons, List.dropWhile_cons, hp, ih]

/-- Every element of a `takeWhile` run satisfies the predicate. -/
theorem mem_takeWhile_pred (p : Char → Bool) (l : Str) :
    ∀ x ∈ l.takeWhile p, p x = true := by
  induction l with
  | nil => simp
  | cons c cs ih =>
    cases hp : p c with
    | false => simp [List.takeWhile_cons, hp]
    | true =>
      intro x hx
      rw [List.takeWhile_cons, hp] at hx
      rcases List.mem_cons.mp hx with h | h
      · exact h ▸ hp
      · exact ih x h

/-- The head of a non-empty `dropWhile` remainder fails the predicate. -/
theorem dropWhile_head_false (p : Char → Bool) (l : Str) (d : Char)
    (tail : Str) (h : l.dropWhile p = d :: tail) : p d = false := by
  induction l with
  | nil => cases h
  | cons c cs ih =>
    rw [List.dropWhile_cons] at h
    cases hp : p c with
    | true => rw [hp] at h; simp only [if_pos] at h; exact ih h
    | false =>
      rw [hp] at h
      simp only [Bool.false_eq_true, if_false] at h
      cases h; exact hp

/-- A `takeWhile` run stops exactly at the sentinel that follows it. -/
theorem takeWhile_ne_append (run r : Str)
    (h : ∀ x ∈ run, (x != ')') = true) :
    (run ++ ')' :: r).takeWhile (fun x => x != ')') = run := by
  induction run with
  | nil => simp [List.takeWhile_cons]
  | cons c cs ih =>
    have hc := h c (by simp)
    have hcs : ∀ x ∈ cs, (x != ')') = true := fun x hx => h x (by simp [hx])
    simp [List.takeWhile_cons, hc, ih hcs]

/-- A well-shaped notation occurrence at the head makes `hasBigO` true,
whatever follows the closing parenthesis. -/
theorem hasBigO_head (c : Char) (run r : Str) (hc : isBigOStart c = true)
    (hrun : run ≠ []) (hall : ∀ x ∈ run, (x != ')') = true) :
    hasBigO (c :: '(' :: (run ++ ')' :: r)) = true := by
  have htake := takeWhile_ne_append run r hall
  have hdrop : (run ++ ')' :: r).drop
      ((run ++ ')' :: r).takeWhile (fun x => x != ')')).length =
      ')' :: r := by
    rw [htake]; exact List.drop_left run (')' :: r)
  simp only [hasBigO, findBigO, bigOMatchAt, hc, htake, hdrop,
    beq_self_eq_true, Bool.and_self, if_pos]
  simp [hrun]

/-- Inversion of a head match: the matched text is `c(`, a non-`)` run,
`)`, and the input continues after the closing parenthesis. -/
theorem bigOMatchAt_inv {s m : Str} (h : bigOMatchAt s = some m) :
    ∃ (c : Char) (run rest : Str), isBigOStart c = true ∧ run ≠ [] ∧
      (∀ x ∈ run, (x != ')') = true) ∧ m = c :: '(' :: (run ++ [')']) ∧
      s = c :: '(' :: (run ++ ')' :: rest) := by
  rcases s with _ | ⟨c, _ | ⟨p, cs⟩⟩
  · cases h
  · cases h
  · simp only [bigOMatchAt] at h
    by_cases hok : (isBigOStart c && p == '(') = true
    case neg => rw [if_neg hok] at h; cases h
    case pos =>
      rw [if_pos hok] at h
      obtain ⟨hc, hp⟩ : isBigOStart c = true ∧ (p == '(') = true := by
        simpa using hok
      have hp' : p = '(' := beq_iff_eq.mp hp
      by_cases hempty : ((cs.takeWhile (fun x => x != ')')).isEmpty ||
          (cs.drop (cs.takeWhile (fun x => x != ')')).length).isEmpty) = true
      case pos => rw [if_pos hempty] at h; cases h
      case neg =>
        rw [if_neg hempty] at h
        cases h
        have hrun : cs.takeWhile (fun x => x != ')') ≠ [] := by
          intro hcontra
          exact hempty (by simp [hcontra])
        have hrest : cs.drop (cs.takeWhile (fun x => x != ')')).length
            ≠ [] := by
          intro hcontra
          exact hempty (by simp [hcontra])
        rw [drop_length_takeWhile] at hrest
        obtain ⟨d, tail, hdt⟩ : ∃ d tail,
            cs.dropWhile (fun x => x != ')') = d :: tail := by
          rcases hcd : cs.dropWhile (fun x => x != ')') with _ | ⟨d, tail⟩
          · exact absurd hcd hrest
          · exact ⟨d, tail, rfl⟩
        have hd : d = ')' := by
          have := dropWhile_head_false _ cs d tail hdt
          simpa using this
        refine ⟨c, cs.takeWhile (fun x => x != ')'), tail, hc, hrun,
          mem_takeWhile_pred _ cs, by rw [hp'], ?_⟩
        have hcs : cs = cs.takeWhile (fun x => x != ')') ++ ')' :: tail := by
          conv_lhs => rw [← List.takeWhile_append_dropWhile
            (p := fun x => x != ')') (l := cs)]
          rw [hdt, hd]
        rw [hp', ← hcs]

/-- A leftmost match is non-empty and remains a match when anything is
appended after it. -/
theorem findBigO_extend {t ntn : Str} (h : findBigO t = some ntn) :
    ntn ≠ [] ∧ ∀ r, hasBigO (ntn ++ r) = true := by
  induction t with
  | nil => cases h
  | cons c cs ih =>
    rw [findBigO] at h
    cases hA : bigOMatchAt (c :: cs) with
    | some m =>
      rw [hA] at h
      cases h
      obtain ⟨c', run, rest, hc', hrun, hall, hmeq, _⟩ := bigOMatchAt_inv hA
      subst hmeq
      refine ⟨by simp, fun r => ?_⟩
      have hassoc : (c' :: '(' :: (run ++ [')'])) ++ r =
          c' :: '(' :: (run ++ ')' :: r) := by simp
      rw [hassoc]
      exact hasBigO_head c' run r hc' hrun hall
    | none =>
      rw [hA] at h
      exact ih h

/-- The synthesized prefix always carries notation. -/
theorem hasBigO_synthesized (t : Str) :
    hasBigO ("O(n) - ".data ++ t) = true := rfl

/-- **C7** (confirmed).  If the matched complexity text (time or space)
lacks `O(...)` notation, the result field is exactly that text (trimmed,
as the source stores it) prefixed with `O(n) - `; and in every case — text
matched or heading absent — both complexity fields are non-empty and
contain `O(...)` notation. -/
theorem solution_complexity_fields :
    (∀ m : Str, hasBigO (jsTrim m) = false →
        timeComplexityOf (some m) = "O(n) - ".data ++ jsTrim m ∧
        spaceComplexityOf (some m) = "O(n) - ".data ++ jsTrim m) ∧
    (∀ om : Option Str,
        timeComplexityOf om ≠ [] ∧ hasBigO (timeComplexityOf om) = true) ∧
    (∀ om : Option Str,
        spaceComplexityOf om ≠ [] ∧ hasBigO (spaceComplexityOf om) = true) := by
  have key : ∀ (deflt : Str), deflt ≠ [] → hasBigO deflt = true →
      ∀ om, fixComplexity deflt om ≠ [] ∧
        hasBigO (fixComplexity deflt om) = true := by
    intro deflt hne hbig om
    cases om with
    | none => exact ⟨hne, hbig⟩
    | some m =>
      simp only [fixComplexity]
      by_cases h1 : hasBigO (jsTrim m)
      · rw [if_neg (by simp [h1])]
        by_cases h2 : (!containsStr (jsTrim m) "-".data &&
            !containsStr (jsTrim m) "because".data) = true
        · rw [if_pos h2]
          obtain ⟨ntn, hntn⟩ := Option.isSome_iff_exists.mp h1
          rw [hntn]
          obtain ⟨hnne, hext⟩ := findBigO_extend hntn
          constructor
          · show ntn ++ " - ".data ++ jsTrim (removeFirst ntn (jsTrim m)) ≠ []
            rcases ntn with _ | ⟨a, b⟩
            · exact absurd rfl hnne
            · simp
          · show hasBigO (ntn ++ " - ".data ++
              jsTrim (removeFirst ntn (jsTrim m))) = true
            rw [List.append_assoc]
            exact hext _
        · rw [if_neg h2]
          refine ⟨?_, h1⟩
          intro hcontra
          rw [hcontra] at h1
          exact absurd h1 (by decide)
      · have h1' : hasBigO (jsTrim m) = false := by
          simpa using h1
        rw [if_pos (by simp [h1'])]
        exact ⟨by simp, hasBigO_synthesized _⟩
  refine ⟨?_, key timeComplexityDefault (by decide) (by decide),
    key spaceComplexityDefault (by decide) (by decide)⟩
  intro m h
  constructor <;>
    simp [timeComplexityOf, spaceComplexityOf, fixComplexity, h]

/-- Witness for C7: a matched complexity text with no notation gets the
synthesized prefix. -/
theorem solution_complexity_fields_witness :
    timeComplexityOf (some "constant extra memory only".data) =
      "O(n) - ".data ++ jsTrim "constant extra memory only".data :=
  (solution_complexity_fields.1 "constant extra memory only".data
    (by decide)).1

/-! ## Theorems for claim C8 -/

/-- The fence pattern in explicit characters. -/
theorem fence_chars : "```".data = [backtickChar, backtickChar, backtickChar] := by
  decide

/-- The fence pattern is not a prefix of a string starting with a
non-backtick character. -/
theorem fence_not_prefix_of_other (c : Char) (cs : Str)
    (hc : c ≠ backtickChar) : ("```".data.isPrefixOf (c :: cs)) = false := by
  rw [fence_chars]
  show (backtickChar == c && List.isPrefixOf [backtickChar, backtickChar] cs)
    = false
  have : (backtickChar == c) = false :=
    beq_eq_false_iff_ne.mpr (fun hh => hc hh.symm)
  simp [this]

/-- `dropStart` of the fence fails on a non-backtick head. -/
theorem dropStart_fence_ne (c : Char) (cs : Str) (hc : c ≠ backtickChar) :
    dropStart "```".data (c :: cs) = none := by
  simp only [dropStart]
  rw [if_neg]
  intro hpre
  rw [fence_not_prefix_of_other c cs hc] at hpre
  cases hpre

/-- `dropStart` of the fence succeeds exactly on a fence. -/
theorem dropStart_fence_here (x : Str) :
    dropStart "```".data ("```".data ++ x) = some x := by
  simp only [dropStart]
  rw [if_pos (List.isPrefixOf_iff_prefix.mpr (List.prefix_append _ _))]
  rw [List.drop_left]

/-- A backtick-free input has no fence. -/
theorem afterFirstFence_of_no_backtick (s : Str) (h : backtickChar ∉ s) :
    afterFirstFence s = none := by
  induction s with
  | nil => rfl
  | cons c cs ih =>
    have hc : c ≠ backtickChar := fun hcc => h (by simp [hcc])
    have hcs : backtickChar ∉ cs := fun hm => h (by simp [hm])
    simp only [afterFirstFence, dropStart_fence_ne c cs hc]
    exact ih hcs

/-- The first fence after a backtick-free prelude is the explicit one. -/
theorem afterFirstFence_at (pre x : Str) (h : backtickChar ∉ pre) :
    afterFirstFence (pre ++ ("```".data ++ x)) = some x := by
  induction pre with
  | nil =>
    have hcons : "```".data ++ x =
        backtickChar :: ([backtickChar, backtickChar] ++ x) := by
      rw [fence_chars]; rfl
    rw [List.nil_append, hcons]
    simp only [afterFirstFence]
    rw [← hcons, dropStart_fence_here]
  | cons c cs ih =>
    have hc : c ≠ backtickChar := fun hcc => h (by simp [hcc])
    have hcs : backtickChar ∉ cs := fun hm => h (by simp [hm])
    rw [List.cons_append]
    simp only [afterFirstFence]
    rw [dropStart_fence_ne _ _ hc]
    exact ih hcs

/-- The lazy capture before an explicit fence, when the captured part is
backtick-free. -/
theorem upToFence_at (b x : Str) (h : backtickChar ∉ b) :
    upToFence (b ++ ("```".data ++ x)) = some b := by
  induction b with
  | nil =>
    have hcons : "```".data ++ x =
        backtickChar :: ([backtickChar, backtickChar] ++ x) := by
      rw [fence_chars]; rfl
    rw [List.nil_append, hcons]
    simp only [upToFence]
    rw [← hcons, dropStart_fence_here]
  | cons c cs ih =>
    have hc : c ≠ backtickChar := fun hcc => h (by simp [hcc])
    have hcs : backtickChar ∉ cs := fun hm => h (by simp [hm])
    rw [List.cons_append]
    simp only [upToFence]
    rw [dropStart_fence_ne _ _ hc, ih hcs]

/-- A `takeWhile` run over `a ++ q :: r` is exactly `a` when every element
of `a` satisfies the predicate and `q` fails it. -/
theorem takeWhile_stops (p : Char → Bool) (a : Str) (q : Char) (r : Str)
    (ha : ∀ x ∈ a, p x = true) (hq : p q = false) :
    (a ++ q :: r).takeWhile p = a := by
  induction a with
  | nil => simp [List.takeWhile_cons, hq]
  | cons c cs ih =>
    have hc := ha c (by simp)
    have hcs : ∀ x ∈ cs, p x = true := fun x hx => ha x (by simp [hx])
    simp [List.takeWhile_cons, hc, ih hcs]

/-- `dropWhile` distributes over an append whose right part starts with a
failing element. -/
theorem dropWhile_append_stop (p : Char → Bool) (a b : Str) (q : Char)
    (hq : p q = false) :
    (a ++ q :: b).dropWhile p = a.dropWhile p ++ q :: b := by
  induction a with
  | nil => simp [List.dropWhile_cons, hq]
  | cons c cs ih =>
    cases hc : p c <;> simp [List.dropWhile_cons, hc, ih]

/-- Membership in a `dropWhile` remainder implies membership in the
original list. -/
theorem mem_of_mem_dropWhile (p : Char → Bool) (l : Str) (x : Char)
    (h : x ∈ l.dropWhile p) : x ∈ l := by
  induction l with
  | nil => simp at h
  | cons c cs ih =>
    rw [List.dropWhile_cons] at h
    cases hc : p c
    · rw [hc] at h; simpa using h
    · rw [hc] at h
      simp only [if_pos] at h
      exact List.mem_cons_of_mem c (ih h)

/-- `dropWhile` is idempotent. -/
theorem dropWhile_idem (p : Char → Bool) (l : Str) :
    (l.dropWhile p).dropWhile p = l.dropWhile p := by
  induction l with
  | nil => rfl
  | cons c cs ih =>
    rw [List.dropWhile_cons]
    cases hc : p c
    · simp [List.dropWhile_cons, hc]
    · simpa using ih

/-- Trimming ignores already-dropped leading whitespace. -/
theorem jsTrim_dropWhile (b : Str) :
    jsTrim (b.dropWhile isJsSpace) = jsTrim b := by
  unfold jsTrim trimStartStr
  rw [dropWhile_idem]

/-- **C8** (confirmed).  For a response containing a fenced code block —
a backtick-free prelude, the opening fence with a word-character language
tag and a newline, a backtick-free body, and the closing fence — the code
field is exactly the trimmed body; for a backtick-free response (hence one
with no fenced block), the code field is the whole response text. -/
theorem solution_code_extraction :
    (∀ pre lang body rest : Str,
        backtickChar ∉ pre → (∀ c ∈ lang, isWordChar c = true) →
        backtickChar ∉ body →
        solveCode (pre ++ "```".data ++ lang ++ '\n' ::
          (body ++ "```".data ++ rest)) = jsTrim body) ∧
    (∀ s : Str, backtickChar ∉ s → solveCode s = s) := by
  constructor
  · intro pre lang body rest hpre hlang hbody
    have hshape : pre ++ "```".data ++ lang ++ '\n' ::
        (body ++ "```".data ++ rest) =
        pre ++ ("```".data ++ (lang ++ '\n' ::
          (body ++ "```".data ++ rest))) := by
      simp [List.append_assoc]
    have hAfter : afterFirstFence (pre ++ "```".data ++ lang ++ '\n' ::
        (body ++ "```".data ++ rest)) =
        some (lang ++ '\n' :: (body ++ "```".data ++ rest)) := by
      rw [hshape]
      exact afterFirstFence_at _ _ hpre
    have hTakeLang : (lang ++ '\n' ::
        (body ++ "```".data ++ rest)).takeWhile isWordChar = lang :=
      takeWhile_stops _ _ _ _ hlang (by decide)
    have hDropLang : (lang ++ '\n' ::
        (body ++ "```".data ++ rest)).drop lang.length =
        '\n' :: (body ++ "```".data ++ rest) :=
      List.drop_left _ _
    have hWsChain : ('\n' :: (body ++ "```".data ++ rest)).drop
        (('\n' :: (body ++ "```".data ++ rest)).takeWhile
          isJsSpace).length =
        body.dropWhile isJsSpace ++ "```".data ++ rest := by
      rw [drop_length_takeWhile]
      have hsplit : body ++ "```".data ++ rest =
          body ++ backtickChar :: ([backtickChar, backtickChar] ++ rest) := by
        rw [List.append_assoc, fence_chars]; rfl
      rw [List.dropWhile_cons]
      have hnl : isJsSpace '\n' = true := by decide
      rw [hnl]
      simp only [if_pos]
      rw [hsplit, dropWhile_append_stop _ _ _ _ (by decide)]
      rw [List.append_assoc]
      congr 1
    have hUp : upToFence (body.dropWhile isJsSpace ++ "```".data ++ rest) =
        some (body.dropWhile isJsSpace) := by
      rw [List.append_assoc]
      refine upToFence_at _ _ ?_
      intro hmem
      exact hbody (mem_of_mem_dropWhile _ _ _ hmem)
    simp only [solveCode, extractFencedCode, hAfter, hTakeLang, hDropLang,
      hWsChain, hUp]
    exact jsTrim_dropWhile body
  · intro s hs
    simp only [solveCode, extractFencedCode,
      afterFirstFence_of_no_backtick s hs]

/-- Witness for C8 at a concrete response with one fenced python block. -/
theorem solution_code_extraction_witness :
    solveCode ("Here is code:\n".data ++ "```".data ++ "python".data ++
        '\n' :: ("print(42)\n".data ++ "```".data ++ "\nDone.".data)) =
      jsTrim "print(42)\n".data :=
  solution_code_extraction.1 "Here is code:\n".data "python".data
    "print(42)\n".data "\nDone.".data (by decide) (by decide) (by decide)

/-! ## Theorems for claim C9 -/

/-- **C9** (confirmed).  The selector is total (initialization failures
never escape: the embedding is a total function into `Option Provider`);
every provider it exposes answers `isInitialized() = true`, so no
partially-initialized adapter is visible to the stages; and the failure
cases — missing credential for the configured cloud kind, failed liveness
probe for the local kind — yield no adapter at all. -/
theorem provider_initialization_invariant :
    (∀ (probe : Str → Option (List Str)) (cfg : Config) (p : Provider),
        initializeModelProvider probe cfg = some p →
        providerIsInitialized p = true) ∧
    (∀ (probe : Str → Option (List Str)) (cfg : Config),
        cfg.modelProvider = "gemini".data → cfg.geminiApiKey = [] →
        initializeModelProvider probe cfg = none) ∧
    (∀ (probe : Str → Option (List Str)) (cfg : Config),
        ¬ cfg.modelProvider = "gemini".data →
        ¬ cfg.modelProvider = "ollama".data → cfg.apiKey = [] →
        initializeModelProvider probe cfg = none) ∧
    (∀ (probe : Str → Option (List Str)) (cfg : Config),
        cfg.modelProvider = "ollama".data →
        probe (if cfg.ollamaUrl.isEmpty then
          "http://localhost:11434/api".data else cfg.ollamaUrl) = none →
        initializeModelProvider probe cfg = none) := by
  refine ⟨?_, ?_, ?_, ?_⟩
  · intro probe cfg p h
    simp only [initializeModelProvider] at h
    by_cases hg : (if cfg.modelProvider.isEmpty then "openai".data
        else cfg.modelProvider) = "gemini".data
    · rw [if_pos hg] at h
      by_cases hk : cfg.geminiApiKey.isEmpty
      · simp [geminiInitialize, hk] at h
      · simp only [geminiInitialize, hk, Bool.false_eq_true,
          if_false] at h
        cases h
        rfl
    · rw [if_neg hg] at h
      by_cases ho : (if cfg.modelProvider.isEmpty then "openai".data
          else cfg.modelProvider) = "ollama".data
      · rw [if_pos ho] at h
        simp only [ollamaInitialize] at h
        cases hp : probe (if cfg.ollamaUrl.isEmpty then
            "http://localhost:11434/api".data else cfg.ollamaUrl) with
        | some models => rw [hp] at h; cases h; rfl
        | none => rw [hp] at h; cases h
      · rw [if_neg ho] at h
        by_cases hk : cfg.apiKey.isEmpty
        · simp [openaiInitialize, hk] at h
        · simp only [openaiInitialize, hk, Bool.false_eq_true,
            if_false] at h
          cases h
          rfl
  · intro probe cfg hmp hkey
    have hne : cfg.modelProvider.isEmpty = false := by
      rw [hmp]; rfl
    simp [initializeModelProvider, hne, hmp, geminiInitialize, hkey]
  · intro probe cfg hg ho hkey
    have h1 : ¬ (if cfg.modelProvider.isEmpty then "openai".data
        else cfg.modelProvider) = "gemini".data := by
      by_cases hne : cfg.modelProvider.isEmpty
      · rw [if_pos hne]; decide
      · rw [if_neg hne]; exact hg
    have h2 : ¬ (if cfg.modelProvider.isEmpty then "openai".data
        else cfg.modelProvider) = "ollama".data := by
      by_cases hne : cfg.modelProvider.isEmpty
      · rw [if_pos hne]; decide
      · rw [if_neg hne]; exact ho
    have hk : cfg.apiKey.isEmpty = true := by rw [hkey]; rfl
    simp only [initializeModelProvider]
    rw [if_neg h1, if_neg h2]
    simp only [openaiInitialize, hk, if_pos]
  · intro probe cfg hmp hprobe
    have hcond : ¬ (cfg.modelProvider.isEmpty = true) := by
      rw [hmp]; decide
    have hsel : (if cfg.modelProvider.isEmpty then "openai".data
        else cfg.modelProvider) = "ollama".data := by
      rw [if_neg hcond]; exact hmp
    simp only [initializeModelProvider]
    rw [if_neg (by rw [hsel]; decide), if_pos hsel]
    simp only [ollamaInitialize]
    rw [hprobe]

/-- Witness for C9: with the default configuration (provider kind
`openai`, empty credential) the selector exposes no adapter. -/
theorem provider_initialization_invariant_witness :
    initializeModelProvider (fun _ => none) defaultConfig = none :=
  provider_initialization_invariant.2.2.1 (fun _ => none) defaultConfig
    (by decide) (by decide) rfl

/-! ## Theorems for claim C10 -/

/-- **C10** (confirmed).  The Gemini adapter's `initialize` succeeds
exactly when the configured credential is non-empty, after which
`isInitialized()` reports exactly that success — all without any network
probe: the embedding of `GeminiProvider.initialize`, unlike the Ollama
one, takes no backend oracle because the source only constructs local
client objects.  Credential validity is therefore only discovered when
`chatComplete` runs. -/
theorem gemini_initialize_no_probe :
    ∀ cfg : Config,
      ((geminiInitialize cfg).2 = true ↔ ¬ cfg.geminiApiKey = []) ∧
      geminiIsInitialized (geminiInitialize cfg).1 =
        (geminiInitialize cfg).2 := by
  intro cfg
  by_cases hk : cfg.geminiApiKey.isEmpty
  · have : cfg.geminiApiKey = [] := List.isEmpty_iff.mp hk
    simp [geminiInitialize, geminiIsInitialized, hk, this]
  · have : ¬ cfg.geminiApiKey = [] := fun hc => hk (by rw [hc]; rfl)
    simp [geminiInitialize, geminiIsInitialized, hk, this]
